import Mathlib

/-!
Shallow embedding of the Orleans Parish court scraper
(asyncio_orleans_scraper.py).  Pure string and list manipulations are
translated directly from the source; the asynchronous HTTP layer is
represented by an explicit outcome per fetch attempt, and the
single-threaded cooperative event loop by a sequential schedule of the
task list (one admissible interleaving).  Fallible code returns Option,
with none standing for a raised exception (ValueError from int, or a
propagated fetch exception).
-/

namespace CourtScrape

/-- Decimal value of a digit string: fold of 10 * acc + digit, exactly
the value Python int computes on an all-digit string. -/
def digitsVal (ds : List Char) : Nat :=
  ds.foldl (fun a c => 10 * a + (c.toNat - 48)) 0

/-- Model of Python int applied to the character shapes that arise from
the filename slices in this program: an optional sign followed only by
decimal digits parses to its value; anything else raises ValueError,
modelled as none.  (Whitespace and underscore forms accepted by Python
int do not arise from the slices considered here.) -/
def pyInt (s : List Char) : Option Int :=
  match s with
  | [] => none
  | c :: ds =>
    if c = '-' then
      if !ds.isEmpty && ds.all Char.isDigit then some (-(digitsVal ds : Int)) else none
    else if c = '+' then
      if !ds.isEmpty && ds.all Char.isDigit then some ((digitsVal ds : Int)) else none
    else if (c :: ds).all Char.isDigit then some ((digitsVal (c :: ds) : Int)) else none

/-- Characters of the literal "defendant", the fixed part of the
defendant filename regex. -/
def defChars : List Char := ['d', 'e', 'f', 'e', 'n', 'd', 'a', 'n', 't']

/-- Characters of the literal "docket", the fixed part of the docket
filename regex. -/
def docketChars : List Char := ['d', 'o', 'c', 'k', 'e', 't']

/-- Characters of the literal ".html", the extension part of both
filename regexes. -/
def extChars : List Char := ['.', 'h', 't', 'm', 'l']

/-- Does the regex pre ++ backslash-d-plus ++ ".html" match at the start
of s?  Because a dot is not a digit, the backtracking regex engine can
only succeed by taking the maximal digit run after the fixed prefix, so
greedy takeWhile is an exact model of the Python regex. -/
def matchHereP (pre : List Char) (s : List Char) : Bool :=
  pre.isPrefixOf s &&
    (let rest := s.drop pre.length
     !(rest.takeWhile Char.isDigit).isEmpty &&
       extChars.isPrefixOf (rest.dropWhile Char.isDigit))

/-- Model of re.search for the pattern pre ++ backslash-d-plus ++
".html": try a match starting at every position of the string. -/
def searchP (pre : List Char) : List Char → Bool
  | [] => matchHereP pre []
  | c :: t => matchHereP pre (c :: t) || searchP pre t

/-- The regex used for defendant filenames. -/
def defendantPattern : List Char → Bool := searchP defChars

/-- The regex used for docket filenames. -/
def docketPattern : List Char → Bool := searchP docketChars

/-- The slice i[:-5][-6:] applied to a filename: drop the last five
characters, then keep the last six of what remains, with the exact
clamping semantics of Python slices on short strings. -/
def sliceId (i : List Char) : List Char :=
  let t := i.take (i.length - 5)
  t.drop (t.length - 6)

/-- Option-propagating map, modelling a Python list comprehension in
which each element computation may raise (the first raise aborts the
whole comprehension). -/
def mapOpt (f : α → Option β) : List α → Option (List β)
  | [] => some []
  | a :: as =>
    match f a with
    | none => none
    | some b => (mapOpt f as).map (b :: ·)

/-- The list "downloaded" computed by both check_missing and
check_range_downloaded: for every directory entry matching the regex,
int of the slice i[:-5][-6:].  The listing argument stands for
os.listdir of the target directory.  none models a ValueError escaping
the comprehension. -/
def extractIds (fpattern : List Char → Bool) (listing : List (List Char)) :
    Option (List Int) :=
  mapOpt (fun i => pyInt (sliceId i)) (listing.filter fpattern)

/-- Python range start stop as a list of Ints (empty when stop is not
greater than start). -/
def intRange (start stop : Int) : List Int :=
  (List.range (stop - start).toNat).map (fun (k : Nat) => start + (k : Int))

/-- check_missing from the source: ids of range start stop not among the
ids extracted from the directory listing.  none models the ValueError
raised when a filename matches the regex but its slice is not an
integer. -/
def check_missing (start stop : Int) (listing : List (List Char))
    (fpattern : List Char → Bool) : Option (List Int) :=
  (extractIds fpattern listing).map
    (fun downloaded => (intRange start stop).filter (fun j => !downloaded.contains j))

/-- check_range_downloaded from the source: whether either boundary id
appears among the extracted ids.  Note the source tests stop itself,
although range start stop never contains stop. -/
def check_range_downloaded (start stop : Int) (listing : List (List Char))
    (fpattern : List Char → Bool) : Option Bool :=
  (extractIds fpattern listing).map
    (fun downloaded => downloaded.contains start || downloaded.contains stop)

/-- check_missing_defendants from the source: the defendant directory
instance of check_missing. -/
def check_missing_defendants (start stop : Int) (listing : List (List Char)) :
    Option (List Int) :=
  check_missing start stop listing defendantPattern

/-- check_defendant_range_downloaded from the source. -/
def check_defendant_range_downloaded (start stop : Int) (listing : List (List Char)) :
    Option Bool :=
  check_range_downloaded start stop listing defendantPattern

/-- Six-character zero-padded decimal rendering of n (n below 1000000),
the shape of the id embedded in a well-formed defendant filename. -/
def sixDigits (n : Nat) : List Char :=
  [Nat.digitChar (n / 100000 % 10), Nat.digitChar (n / 10000 % 10),
   Nat.digitChar (n / 1000 % 10), Nat.digitChar (n / 100 % 10),
   Nat.digitChar (n / 10 % 10), Nat.digitChar (n % 10)]

/-- The on-disk filename the scraper writes for defendant id j, for ids
with six decimal digits (all ids in the production range 633000 to
791264 have six digits, so no padding question arises there; for
smaller ids this is the zero-padded six-digit form). -/
def canonicalName (j : Int) : List Char :=
  defChars ++ sixDigits j.toNat ++ extChars

/-- Outcome of one HTTP GET attempt, the abstraction of the aiohttp
layer: a successful response with its permissively decoded text, an
asyncio.TimeoutError or aiohttp.ClientError, or any other exception. -/
inductive FetchOutcome
  | success (body : List Char)
  | timeoutOrClient
  | unexpected
deriving DecidableEq

/-- An element of the failed_urls Python list.  The list normally holds
url strings, appended whole by list.append; the plus-equals statement on
the unexpected-error path instead extends the list with the individual
characters of the url, so both shapes occur. -/
inductive Entry
  | str (s : List Char)
  | chr (c : Char)
deriving DecidableEq

/-- A file path, keyed by the identifier it is derived from: inl id maps
to defendant_path ++ "defendant" ++ id ++ ".html", inr s (the last six
characters of a sheet link) maps to docket_path ++ "docket" ++ s ++
".html".  Both renderings are injective in the key, so the filesystem is
modelled keyed by identifier. -/
abbrev Fname := Int ⊕ List Char

/-- One entry appended to the log buffer, at the granularity of the
format strings in the source; the strftime timestamp prepended to every
entry is elided. -/
inductive LogMsg
  | downloading (item : List Char)
  | timeoutClient (url : List Char)
  | excDownload (url : List Char)
  | excDefendant (d : Int)
  | excSheet (link : List Char)
  | writing (fname : Fname) (n : Nat)
  | munchStarted
  | munchCompleted
  | munchCancelled
deriving DecidableEq

/-- Lower bound on the length of the rendered Python log entry for a
message: the constant part of each format string plus the interpolated
string argument; timestamps, interpolated numbers and exception class
names are elided, so the real buffer is at least this long. -/
def renderLen : LogMsg → Nat
  | .downloading item => 12 + item.length
  | .timeoutClient url => 39 + url.length
  | .excDownload url => 29 + url.length
  | .excDefendant _ => 26
  | .excSheet link => 21 + link.length
  | .writing _ _ => 19
  | .munchStarted => 16
  | .munchCompleted => 18
  | .munchCancelled => 37

/-- Length in rendered characters of the accumulated log buffer (lower
bound, see renderLen). -/
def bufLen (buf : List LogMsg) : Nat := (buf.map renderLen).sum

/-- UTF-8 encoding of one character, byte by byte. -/
def utf8EncodeChar (c : Char) : List Nat :=
  let n := c.toNat
  if n < 0x80 then [n]
  else if n < 0x800 then [0xC0 + n / 0x40, 0x80 + n % 0x40]
  else if n < 0x10000 then
    [0xE0 + n / 0x1000, 0x80 + n / 0x40 % 0x40, 0x80 + n % 0x40]
  else
    [0xF0 + n / 0x40000, 0x80 + n / 0x1000 % 0x40,
     0x80 + n / 0x40 % 0x40, 0x80 + n % 0x40]

/-- UTF-8 encoding of a string, as produced by str.encode. -/
def utf8Encode (s : List Char) : List Nat := (s.map utf8EncodeChar).flatten

/-- Mutable state of one AsyncioOrleansScraper instance together with
the parts of the outside world it writes: log_file holds the entries
flushed so far to the on-disk log (an append-only file), fs holds the
defendant and docket files written so far, keyed as in Fname. -/
structure Scraper where
  failed_urls : List Entry
  log_buffer : List LogMsg
  log_len : Nat
  log_file : List LogMsg
  links : List (List Char)
  fs : List (Fname × List Nat)
deriving DecidableEq

/-- The state right after AsyncioOrleansScraper.__init__ (with an empty
log file and empty output directories). -/
def initState : Scraper :=
  { failed_urls := [], log_buffer := [], log_len := 0, log_file := [],
    links := [], fs := [] }

/-- write_log from the source: append the buffer to the log file, then
reset the buffer and log_len. -/
def write_log (st : Scraper) : Scraper :=
  { st with log_file := st.log_file ++ st.log_buffer, log_buffer := [], log_len := 0 }

/-- log from the source: append the entry to the buffer (console echo
under verbose elided), then flush if log_len exceeds 100000.  The
source never increments log_len, which this embedding mirrors: no
operation below increases the field. -/
def log (st : Scraper) (message : LogMsg) : Scraper :=
  let st := { st with log_buffer := st.log_buffer ++ [message] }
  if st.log_len > 100000 then write_log st else st

/-- A message has been logged when it sits in the buffer or has already
been flushed to the log file. -/
def logged (st : Scraper) (m : LogMsg) : Prop :=
  m ∈ st.log_buffer ∨ m ∈ st.log_file

/-- Overwrite of one file: the new content replaces whatever was at the
path (open mode wb truncates). -/
def fsUpdate (fs : List (Fname × List Nat)) (k : Fname) (v : List Nat) :
    List (Fname × List Nat) :=
  (k, v) :: fs.filter (fun p => decide (p.1 ≠ k))

/-- Content currently on disk at a path, if any. -/
def fsLookup (fs : List (Fname × List Nat)) (k : Fname) : Option (List Nat) :=
  (fs.find? (fun p => decide (p.1 = k))).map (·.2)

/-- Decimal rendering of an Int as interpolated into an f-string. -/
def intChars (i : Int) : List Char :=
  if i < 0 then '-' :: Nat.toDigits 10 i.natAbs else Nat.toDigits 10 i.toNat

/-- The def_url class attribute. -/
def def_url : List Char := "http://www.opcso.org/dcktmstr/dmdspscn.php?d1scnn=".toList

/-- The sheet_url class attribute. -/
def sheet_url : List Char := "http://www.opcso.org/dcktmstr/".toList

/-- The slice link[-6:] used to build a docket filename. -/
def lastSix (s : List Char) : List Char := s.drop (s.length - 6)

/-- download_item from the source.  Logs the attempt, then branches on
the outcome of the GET: a success returns the body; TimeoutError or
ClientError logs the failure, appends the url to failed_urls as one
element, and returns None (modelled as ok none); any other exception
first extends failed_urls with the characters of the url (the source
uses plus-equals on a string there, not append), logs, and re-raises
(modelled as error). -/
def download_item (st : Scraper) (url_root item : List Char) (oc : FetchOutcome) :
    Scraper × Except Unit (Option (List Char)) :=
  let st := log st (.downloading item)
  let url := url_root ++ item
  match oc with
  | .success body => (st, .ok (some body))
  | .timeoutOrClient =>
    let st := log st (.timeoutClient url)
    ({ st with failed_urls := st.failed_urls ++ [.str url] }, .ok none)
  | .unexpected =>
    let st := { st with failed_urls := st.failed_urls ++ url.map Entry.chr }
    let st := log st (.excDownload url)
    (st, .error ())

/-- A parsed HTML document, the abstraction of the BeautifulSoup value:
the href attributes of its anchor elements, its string rendering, and
its Python truthiness (a soup with no contents is falsy).  HTML parsing
itself is an external collaborator, passed in as a parse function. -/
structure Soup where
  hrefs : List (List Char)
  render : List Char
  truthy : Bool
deriving DecidableEq

/-- The fixed path segment identifying a docket-sheet url. -/
def seg666 : List Char := ['6', '6', '6', '6', '6', '6', '.', 'p', 'h', 'p']

/-- The Python substring test seg in s: does seg occur contiguously
somewhere in s? -/
def containsSeg (seg : List Char) : List Char → Bool
  | [] => seg.isEmpty
  | c :: t => seg.isPrefixOf (c :: t) || containsSeg seg t

/-- get_defendant_case_links from the source: the set of anchor hrefs
that contain the fixed segment, deduplicated (Python set semantics,
modelled as a duplicate-free list). -/
def get_defendant_case_links (soup : Soup) : List (List Char) :=
  (soup.hrefs.filter (fun href => containsSeg seg666 href)).dedup

/-- download_defendant from the source: download, then parse when the
body is truthy (non-None and non-empty), else None. -/
def download_defendant (parse : List Char → Soup) (st : Scraper) (defendant : Int)
    (oc : FetchOutcome) : Scraper × Except Unit (Option Soup) :=
  let (st, r) := download_item st def_url (intChars defendant) oc
  match r with
  | .error e => (st, .error e)
  | .ok none => (st, .ok none)
  | .ok (some body) =>
    if body.isEmpty then (st, .ok none) else (st, .ok (some (parse body)))

/-- download_sheet from the source. -/
def download_sheet (st : Scraper) (link : List Char) (oc : FetchOutcome) :
    Scraper × Except Unit (Option (List Char)) :=
  download_item st sheet_url link oc

/-- write_data from the source: log, open the target for binary write
(truncating), write the UTF-8 bytes of the rendered data only when the
data is truthy, close in every case.  The file ends up holding exactly
the new bytes, or nothing when the data was falsy. -/
def write_data (st : Scraper) (data : List Char) (fname : Fname) : Scraper :=
  let st := log st (.writing fname data.length)
  { st with fs := fsUpdate st.fs fname (if data.isEmpty then [] else utf8Encode data) }

/-- download_defendant_data from the source: fetch one defendant page,
and when the parsed soup is truthy, persist its rendering and merge its
docket links into the accumulated link set.  An exception from the
fetch is logged with the defendant id and re-raised (the Bool result
tells whether the task raised). -/
def download_defendant_data (parse : List Char → Soup) (st : Scraper)
    (defendant : Int) (oc : FetchOutcome) : Scraper × Bool :=
  let (st, r) := download_defendant parse st defendant oc
  match r with
  | .error _ => (log st (.excDefendant defendant), true)
  | .ok none => (st, false)
  | .ok (some soup) =>
    if soup.truthy then
      let st := write_data st soup.render (.inl defendant)
      ({ st with
          links := st.links ++
            (get_defendant_case_links soup).filter (fun l => decide (l ∉ st.links)) },
        false)
    else (st, false)

/-- download_sheet_data from the source: fetch one docket sheet and
persist it when truthy; exceptions are logged with the link and
re-raised. -/
def download_sheet_data (st : Scraper) (link : List Char) (oc : FetchOutcome) :
    Scraper × Bool :=
  let (st, r) := download_sheet st link oc
  match r with
  | .error _ => (log st (.excSheet link), true)
  | .ok none => (st, false)
  | .ok (some body) =>
    if body.isEmpty then (st, false)
    else (write_data st body (.inr (lastSix link)), false)

/-- The defendant fan-out of asyncio.gather under the sequential
schedule of the single-threaded event loop: tasks run to completion in
list order and the gather is aborted by the first task that raises
(gather propagates the first exception; tasks not yet run are the ones
whose effects are absent). -/
def gatherDefendants (parse : List Char → Soup) (fetch : Int → FetchOutcome) :
    Scraper → List Int → Scraper × Bool
  | st, [] => (st, false)
  | st, d :: rest =>
    let (st', raised) := download_defendant_data parse st d (fetch d)
    if raised then (st', true) else gatherDefendants parse fetch st' rest

/-- The sheet fan-out, same schedule as gatherDefendants. -/
def gatherSheets (sheetFetch : List Char → FetchOutcome) :
    Scraper → List (List Char) → Scraper × Bool
  | st, [] => (st, false)
  | st, l :: rest =>
    let (st', raised) := download_sheet_data st l (sheetFetch l)
    if raised then (st', true) else gatherSheets sheetFetch st' rest

/-- munch_defendants from the source: log the start, fan out the
defendant fetches, then fan out the sheet fetches over the accumulated
links, clear the link set and log completion.  The Bool result tells
whether an exception escaped (aborting at the point it arose). -/
def munch_defendants (parse : List Char → Soup) (fetch : Int → FetchOutcome)
    (sheetFetch : List Char → FetchOutcome) (st : Scraper) (defendants : List Int) :
    Scraper × Bool :=
  let st := log st .munchStarted
  let (st, raised) := gatherDefendants parse fetch st defendants
  if raised then (st, true)
  else
    let (st, raised2) := gatherSheets sheetFetch st st.links
    if raised2 then (st, true)
    else
      let st := { st with links := [] }
      (log st .munchCompleted, false)

/-- The work list munch fetches, per its mode decision: when the
boundary-presence check fires, the missing ids of the range; otherwise
the full range, shuffled.  random.shuffle is modelled by the shuffle
parameter (an arbitrary reordering); none models a ValueError escaping
the directory scan. -/
def munchWorkList (shuffle : List Int → List Int) (start stop : Int)
    (listing : List (List Char)) : Option (List Int) :=
  match check_defendant_range_downloaded start stop listing with
  | none => none
  | some true => check_missing_defendants start stop listing
  | some false => some (shuffle (intRange start stop))

/-- munch from the source: decide the mode, run munch_defendants on the
work list; on any escaping exception log the cancellation and flush
(the handler calls write_log, and the final unconditional write_log
runs after it); on the normal path only the final write_log runs.  The
listing argument stands for os.listdir of the defendant directory when
munch starts; the verbose assignment only toggles console echo and is
elided. -/
def munch (parse : List Char → Soup) (fetch : Int → FetchOutcome)
    (sheetFetch : List Char → FetchOutcome) (shuffle : List Int → List Int)
    (start stop : Int) (listing : List (List Char)) (st : Scraper) : Scraper :=
  match munchWorkList shuffle start stop listing with
  | none => write_log (write_log (log st .munchCancelled))
  | some wl =>
    let (st', raised) := munch_defendants parse fetch sheetFetch st wl
    if raised then write_log (write_log (log st' .munchCancelled))
    else write_log st'

/-- Modelled from the spec: the RateLimiter class lives in the
rate_limiter module, which is imported by the source but absent from
the repository sources; per spec section 4.1 the bucket holds a capped
token count, a replenishment step on a fixed interval adds rate / N
tokens capped at max_tokens, and an acquisition waits until at least
one token is available then atomically decrements.  An event is one
replenishment tick or one acquisition that went through without
suspending; a trace evaluates to the final token level, or to none as
soon as an acquisition finds no token (the caller would suspend). -/
inductive BucketEv
  | tick
  | acquire
deriving DecidableEq

/-- Token level evolution of the spec-modelled bucket: tick adds inc
(capped at maxTok), acquire needs a full token and takes it. -/
def bucketRun (inc maxTok : ℚ) : ℚ → List BucketEv → Option ℚ
  | t, [] => some t
  | t, .tick :: es => bucketRun inc maxTok (min (t + inc) maxTok) es
  | t, .acquire :: es => if 1 ≤ t then bucketRun inc maxTok (t - 1) es else none

/-- Number of replenishment ticks in a trace. -/
def countTicks (es : List BucketEv) : Nat :=
  (es.filter (fun e => decide (e = .tick))).length

/-- Number of non-suspending acquisitions in a trace. -/
def countAcquires (es : List BucketEv) : Nat :=
  (es.filter (fun e => decide (e = .acquire))).length

/-- A url of 200000 repetitions of the letter a: a concrete input whose
single log entry exceeds the flush threshold by itself. -/
def bigUrl : List Char := List.replicate 200000 'a'

/-- Pure buffer append, the behavior of log whenever log_len is at most
the threshold; since the source never increments log_len, log coincides
with logB on every state reachable in a run. -/
def logB (st : Scraper) (m : LogMsg) : Scraper :=
  { st with log_buffer := st.log_buffer ++ [m] }

/-- The bytes download_defendant_data ends up writing to the defendant
file for a given fetch outcome: present exactly when the fetch
succeeded with a nonempty body whose parse is truthy. -/
def defWrite (parse : List Char → Soup) (oc : FetchOutcome) : Option (List Nat) :=
  match oc with
  | .success body =>
    if body.isEmpty then none
    else if (parse body).truthy then
      some (if (parse body).render.isEmpty then [] else utf8Encode (parse body).render)
    else none
  | _ => none

/-- A concrete parser fixture: the document renders back to the body,
has no anchors, and is truthy. -/
def parseW : List Char → Soup := fun b => ⟨[], b, true⟩

/-- A concrete fetch schedule: defendant 101 hits an unexpected error,
every other fetch succeeds with body x. -/
def fetchW : Int → FetchOutcome :=
  fun d => if d = 101 then .unexpected else .success ['x']

/-- A concrete sheet-fetch schedule: every sheet fetch times out. -/
def sheetFetchW : List Char → FetchOutcome := fun _ => .timeoutOrClient

lemma digitChar_isDigit {d : Nat} (h : d < 10) : (Nat.digitChar d).isDigit = true := by
  interval_cases d <;> decide

lemma digitChar_toNat {d : Nat} (h : d < 10) : (Nat.digitChar d).toNat = 48 + d := by
  interval_cases d <;> decide

lemma digitChar_ne_dash {d : Nat} (h : d < 10) : Nat.digitChar d ≠ '-' := by
  interval_cases d <;> decide

lemma digitChar_ne_plus {d : Nat} (h : d < 10) : Nat.digitChar d ≠ '+' := by
  interval_cases d <;> decide

lemma sixDigits_all_digit (n : Nat) : (sixDigits n).all Char.isDigit = true := by
  have h : ∀ m : Nat, (Nat.digitChar (m % 10)).isDigit = true :=
    fun m => digitChar_isDigit (Nat.mod_lt _ (by norm_num))
  simp [sixDigits, h]

lemma digitsVal_sixDigits {n : Nat} (h : n < 1000000) : digitsVal (sixDigits n) = n := by
  have t : ∀ m : Nat, (Nat.digitChar (m % 10)).toNat - 48 = m % 10 := by
    intro m
    rw [digitChar_toNat (Nat.mod_lt _ (by norm_num))]
    omega
  simp only [digitsVal, sixDigits, List.foldl, t]
  omega

lemma pyInt_sixDigits {n : Nat} (h : n < 1000000) : pyInt (sixDigits n) = some (n : Int) := by
  have h5 : n / 100000 % 10 < 10 := Nat.mod_lt _ (by norm_num)
  have step : pyInt (sixDigits n) =
      if (sixDigits n).all Char.isDigit then some ((digitsVal (sixDigits n) : Int)) else none := by
    simp only [sixDigits, pyInt]
    rw [if_neg (digitChar_ne_dash h5), if_neg (digitChar_ne_plus h5)]
  rw [step, if_pos (sixDigits_all_digit n), digitsVal_sixDigits h]

lemma isPrefixOf_append (l t : List Char) : l.isPrefixOf (l ++ t) = true :=
  List.isPrefixOf_iff_prefix.mpr (List.prefix_append l t)

lemma isPrefixOf_self (l : List Char) : l.isPrefixOf l = true := by
  have h := isPrefixOf_append l []
  rwa [List.append_nil] at h

lemma takeWhile_append_all {p : Char → Bool} {l : List Char} (h : l.all p = true)
    (t : List Char) : (l ++ t).takeWhile p = l ++ t.takeWhile p := by
  induction l with
  | nil => simp
  | cons a as ih =>
    simp only [List.all_cons, Bool.and_eq_true] at h
    simp [List.takeWhile_cons, h.1, ih h.2]

lemma dropWhile_append_all {p : Char → Bool} {l : List Char} (h : l.all p = true)
    (t : List Char) : (l ++ t).dropWhile p = t.dropWhile p := by
  induction l with
  | nil => simp
  | cons a as ih =>
    simp only [List.all_cons, Bool.and_eq_true] at h
    simp [List.dropWhile_cons, h.1, ih h.2]

lemma matchHereP_canonical (n : Nat) :
    matchHereP defChars (defChars ++ (sixDigits n ++ extChars)) = true := by
  have hall := sixDigits_all_digit n
  have h1 : defChars.isPrefixOf (defChars ++ (sixDigits n ++ extChars)) = true :=
    isPrefixOf_append _ _
  have hdrop : (defChars ++ (sixDigits n ++ extChars)).drop defChars.length
      = sixDigits n ++ extChars := List.drop_left _ _
  have htw : (sixDigits n ++ extChars).takeWhile Char.isDigit = sixDigits n := by
    rw [takeWhile_append_all hall]
    simp [extChars, List.takeWhile_cons]
  have hdw : (sixDigits n ++ extChars).dropWhile Char.isDigit = extChars := by
    rw [dropWhile_append_all hall]
    simp [extChars, List.dropWhile_cons]
  simp only [matchHereP, hdrop, htw, hdw, h1, isPrefixOf_self, Bool.true_and]
  simp [sixDigits]

lemma searchP_of_matchHere {pre s : List Char} (h : matchHereP pre s = true) :
    searchP pre s = true := by
  cases s with
  | nil => simpa [searchP] using h
  | cons c t => simp [searchP, h]

lemma defendantPattern_canonical (j : Int) : defendantPattern (canonicalName j) = true :=
  searchP_of_matchHere (matchHereP_canonical j.toNat)

lemma sliceId_canonical (n : Nat) :
    sliceId (defChars ++ (sixDigits n ++ extChars)) = sixDigits n := rfl

lemma mapOpt_canonical (S : List Int) (hS : ∀ s ∈ S, 0 ≤ s ∧ s < 1000000) :
    mapOpt (fun i => pyInt (sliceId i)) (S.map canonicalName) = some S := by
  induction S with
  | nil => rfl
  | cons s ss ih =>
    obtain ⟨h0, h1⟩ := hS s (List.mem_cons_self s ss)
    have ht : s.toNat < 1000000 := by omega
    simp only [List.map_cons, mapOpt, ih (fun x hx => hS x (List.mem_cons_of_mem _ hx))]
    rw [show canonicalName s = defChars ++ (sixDigits s.toNat ++ extChars) from rfl,
      sliceId_canonical, pyInt_sixDigits ht]
    simp [Int.toNat_of_nonneg h0]

lemma extractIds_wellFormed (junk : List (List Char)) (S : List Int)
    (hjunk : ∀ j ∈ junk, defendantPattern j = false)
    (hS : ∀ s ∈ S, 0 ≤ s ∧ s < 1000000) :
    extractIds defendantPattern (junk ++ S.map canonicalName) = some S := by
  simp only [extractIds, List.filter_append]
  rw [List.filter_eq_nil_iff.mpr (by intro a ha; simp [hjunk a ha]),
    List.filter_eq_self.mpr (by
      intro x hx
      obtain ⟨s, _, rfl⟩ := List.mem_map.mp hx
      exact defendantPattern_canonical s),
    List.nil_append]
  exact mapOpt_canonical S hS

lemma mem_intRange {start stop j : Int} :
    j ∈ intRange start stop ↔ start ≤ j ∧ j < stop := by
  simp only [intRange, List.mem_map, List.mem_range]
  constructor
  · rintro ⟨k, hk, rfl⟩
    omega
  · intro h
    exact ⟨(j - start).toNat, by omega, by omega⟩

lemma pairwise_intRange (start stop : Int) :
    List.Pairwise (· < ·) (intRange start stop) :=
  (List.pairwise_lt_range _).map _ (fun _ _ h => by omega)

lemma not_contains_iff {l : List Int} {a : Int} : (!l.contains a) = true ↔ a ∉ l := by
  simp [List.elem_iff]

/-- C3: for a directory whose entries are the junk files (not matching
the filename regex) plus the canonical files of the ids in S (each with
at most six digits), check_missing over the defendant directory returns
the sorted list of exactly the ids of range start stop with no file
present: every absent id is included and every id whose file exists is
excluded. -/
theorem check_missing_exact (start stop : Int) (junk : List (List Char)) (S : List Int)
    (hjunk : ∀ j ∈ junk, defendantPattern j = false)
    (hS : ∀ s ∈ S, 0 ≤ s ∧ s < 1000000) :
    ∃ L, check_missing_defendants start stop (junk ++ S.map canonicalName) = some L ∧
      List.Sorted (· < ·) L ∧
      ∀ j : Int, j ∈ L ↔ (start ≤ j ∧ j < stop ∧ j ∉ S) := by
  refine ⟨(intRange start stop).filter (fun j => !S.contains j), ?_, ?_, ?_⟩
  · simp only [check_missing_defendants, check_missing,
      extractIds_wellFormed junk S hjunk hS, Option.map_some']
  · exact (pairwise_intRange start stop).filter _
  · intro j
    rw [List.mem_filter, not_contains_iff, mem_intRange]
    tauto

/-- Witness for check_missing_exact at a concrete directory: files for
633000 and 633002, range 633000 to 633004. -/
theorem check_missing_exact_witness :
    ∃ L, check_missing_defendants 633000 633004
        ([] ++ ([633000, 633002] : List Int).map canonicalName) = some L ∧
      List.Sorted (· < ·) L ∧
      ∀ j : Int, j ∈ L ↔ (633000 ≤ j ∧ j < 633004 ∧ j ∉ ([633000, 633002] : List Int)) :=
  check_missing_exact 633000 633004 [] [633000, 633002]
    (by intro j hj; simp at hj) (by decide)

/-- C10: a directory entry matching the filename regex whose id part has
fewer than six digits makes both auditors raise ValueError (modelled as
none), while entries not matching the regex are skipped safely. -/
theorem short_id_raises :
    check_missing 100 110 ["defendant123.html".toList] defendantPattern = none ∧
    check_range_downloaded 100 110 ["defendant123.html".toList] defendantPattern = none ∧
    check_missing 100 102 ["readme.txt".toList] defendantPattern = some [100, 101] ∧
    check_range_downloaded 100 102 ["readme.txt".toList] defendantPattern = some false := by
  refine ⟨?_, ?_, ?_, ?_⟩ <;> decide

/-- C4 counterexample: the claim fails on the code in both of its parts.
First, its own example range 100 to 110 with files for 100, 101, 102 on
disk does not yield the seven missing ids: the restarted run raises
ValueError while parsing defendant100.html (the id has only three
digits), so no work list is computed at all.  Second, for a six-digit
range interrupted with files for 633003, 633005, 633007 (possible under
shuffling), the boundary-presence check fails and the work list is the
full ten-id range, not the seven missing ids. -/
theorem resumption_counterexample :
    munchWorkList id 100 110
        ["defendant100.html".toList, "defendant101.html".toList,
         "defendant102.html".toList] = none ∧
    munchWorkList id 633000 633010 (([633003, 633005, 633007] : List Int).map canonicalName)
        = some (intRange 633000 633010) ∧
    (intRange 633000 633010).length = 10 ∧
    check_missing_defendants 633000 633010
        (([633003, 633005, 633007] : List Int).map canonicalName)
      = some [633000, 633001, 633002, 633004, 633006, 633008, 633009] ∧
    intRange 633000 633010 ≠ [633000, 633001, 633002, 633004, 633006, 633008, 633009] := by
  refine ⟨?_, ?_, ?_, ?_, ?_⟩ <;> decide

/-- C4 amended: when the interrupted run left a file for a boundary id
of the range (start or stop) and all ids on disk have six digits, the
restarted work list is exactly the missing ids of the range, not the
full range; otherwise the heuristic misses and the full range is
refetched, and sub-six-digit filenames raise ValueError. -/
theorem resumption_missing_only (shuffle : List Int → List Int) (start stop : Int)
    (junk : List (List Char)) (S : List Int)
    (hjunk : ∀ j ∈ junk, defendantPattern j = false)
    (hS : ∀ s ∈ S, 0 ≤ s ∧ s < 1000000)
    (hb : start ∈ S ∨ stop ∈ S) :
    munchWorkList shuffle start stop (junk ++ S.map canonicalName)
      = some ((intRange start stop).filter (fun j => !S.contains j)) := by
  have hboundary : (S.contains start || S.contains stop) = true := by
    rcases hb with h | h <;> simp [List.elem_iff, h]
  simp only [munchWorkList, check_defendant_range_downloaded, check_range_downloaded,
    extractIds_wellFormed junk S hjunk hS, Option.map_some', hboundary,
    check_missing_defendants, check_missing]

/-- Witness for resumption_missing_only: the spec resumption example
transposed to six-digit ids; the restarted work list over the range
633000 to 633010 with files for 633000, 633001, 633002 is exactly the
seven missing ids. -/
theorem resumption_missing_only_witness :
    munchWorkList id 633000 633010
        ([] ++ ([633000, 633001, 633002] : List Int).map canonicalName)
      = some ((intRange 633000 633010).filter
          (fun j => !([633000, 633001, 633002] : List Int).contains j)) ∧
    (intRange 633000 633010).filter
        (fun j => !([633000, 633001, 633002] : List Int).contains j)
      = [633003, 633004, 633005, 633006, 633007, 633008, 633009] :=
  ⟨resumption_missing_only id 633000 633010 [] [633000, 633001, 633002]
      (by intro j hj; simp at hj) (by decide) (Or.inl (by decide)),
    by decide⟩

lemma log_quiet {st : Scraper} (h : st.log_len = 0) (m : LogMsg) :
    log st m = logB st m := by
  unfold log logB
  rw [if_neg]
  simp [h]

lemma log_failed_urls (st : Scraper) (m : LogMsg) :
    (log st m).failed_urls = st.failed_urls := by
  simp only [log, write_log]
  split <;> rfl

lemma log_fs (st : Scraper) (m : LogMsg) : (log st m).fs = st.fs := by
  simp only [log, write_log]
  split <;> rfl

lemma log_links (st : Scraper) (m : LogMsg) : (log st m).links = st.links := by
  simp only [log, write_log]
  split <;> rfl

lemma logged_log_self (st : Scraper) (m : LogMsg) : logged (log st m) m := by
  simp only [log, write_log, logged]
  split <;> simp

lemma logged_log_mono {st : Scraper} {m' : LogMsg} (h : logged st m') (m : LogMsg) :
    logged (log st m) m' := by
  simp only [log, write_log, logged] at h ⊢
  split <;> rcases h with h | h <;> simp [h]

lemma find?_filter_ne {fs : List (Fname × List Nat)} {g k : Fname} (h : g ≠ k) :
    (fs.filter (fun p => decide (p.1 ≠ k))).find? (fun p => decide (p.1 = g))
      = fs.find? (fun p => decide (p.1 = g)) := by
  induction fs with
  | nil => rfl
  | cons a as ih =>
    by_cases hg : a.1 = g
    · have hk : a.1 ≠ k := fun hx => h (hg.symm.trans hx)
      rw [List.filter_cons, if_pos (by simpa using hk),
        List.find?_cons_of_pos _ (by simpa using hg),
        List.find?_cons_of_pos _ (by simpa using hg)]
    · rw [List.find?_cons_of_neg _ (by simpa using hg)]
      by_cases hak : a.1 = k
      · rw [List.filter_cons, if_neg (by simpa using hak)]
        exact ih
      · rw [List.filter_cons, if_pos (by simpa using hak),
          List.find?_cons_of_neg _ (by simpa using hg)]
        exact ih

lemma fsLookup_update_self (fs : List (Fname × List Nat)) (k : Fname) (v : List Nat) :
    fsLookup (fsUpdate fs k v) k = some v := by
  unfold fsLookup fsUpdate
  rw [List.find?_cons_of_pos _ (by simp)]
  rfl

lemma fsLookup_update_other {g k : Fname} (fs : List (Fname × List Nat)) (v : List Nat)
    (h : g ≠ k) : fsLookup (fsUpdate fs k v) g = fsLookup fs g := by
  unfold fsLookup fsUpdate
  rw [List.find?_cons_of_neg _ (by simpa using Ne.symm h), find?_filter_ne h]

/-- C1: download_item returns the response text on a successful GET; on
a timeout or client error it logs the failure, appends the failing url
to the failed-url list, and returns empty, and a fan-out made of such
recoverable failures runs to completion without raising; on any other
exception it logs and re-raises, and a fan-out hitting such an outcome
aborts with the exception. -/
theorem download_item_classifies (st : Scraper) (url_root item body : List Char)
    (parse : List Char → Soup) (d : Int) (rest : List Int) :
    (download_item st url_root item (.success body)).2 = .ok (some body) ∧
    (download_item st url_root item (.success body)).1.failed_urls = st.failed_urls ∧
    (download_item st url_root item .timeoutOrClient).2 = .ok none ∧
    (download_item st url_root item .timeoutOrClient).1.failed_urls
      = st.failed_urls ++ [.str (url_root ++ item)] ∧
    logged (download_item st url_root item .timeoutOrClient).1
      (.timeoutClient (url_root ++ item)) ∧
    (download_item st url_root item .unexpected).2 = .error () ∧
    (download_item st url_root item .unexpected).1.failed_urls
      = st.failed_urls ++ (url_root ++ item).map Entry.chr ∧
    logged (download_item st url_root item .unexpected).1
      (.excDownload (url_root ++ item)) ∧
    (gatherDefendants parse (fun _ => .timeoutOrClient) st rest).2 = false ∧
    (gatherDefendants parse (fun _ => .unexpected) st (d :: rest)).2 = true := by
  refine ⟨rfl, by simp [download_item, log_failed_urls], rfl, ?_, ?_, rfl, ?_, ?_, ?_, ?_⟩
  · simp [download_item, log_failed_urls]
  · exact logged_log_self _ _
  · simp [download_item, log_failed_urls]
  · exact logged_log_self _ _
  · induction rest generalizing st with
    | nil => rfl
    | cons x xs ih =>
      simp only [gatherDefendants, download_defendant_data, download_defendant,
        download_item]
      exact ih _
  · simp only [gatherDefendants, download_defendant_data, download_defendant,
      download_item]
    simp

/-- C5 evaluated at the failing input: an unexpected error while
fetching defendant 700000 extends failed_urls with the 56 individual
characters of the url (the source uses plus-equals with a string), so
the list does not hold that url as an element, while a timeout on the
same url appends the url as a single element. -/
theorem failed_urls_char_explosion :
    (download_item initState def_url (intChars 700000) .unexpected).1.failed_urls
      = (def_url ++ intChars 700000).map Entry.chr ∧
    Entry.str (def_url ++ intChars 700000) ∉
      (download_item initState def_url (intChars 700000) .unexpected).1.failed_urls ∧
    (download_item initState def_url (intChars 700000) .unexpected).1.failed_urls.length
      = 56 ∧
    (download_item initState def_url (intChars 700000) .timeoutOrClient).1.failed_urls
      = [Entry.str (def_url ++ intChars 700000)] := by
  refine ⟨?_, ?_, ?_, ?_⟩ <;> decide

/-- C6 evaluated at the failing input: after a log entry far larger
than the 100000-character threshold, the next log call still does not
flush, because the source checks log_len, which is initialised to zero
and never incremented; the buffer keeps both entries and the log file
stays empty.  (The flush at run end does happen: see munch.) -/
lemma bufLen_first_entry (url : List Char) :
    bufLen (log initState (.timeoutClient url)).log_buffer = 39 + url.length := by
  rw [log_quiet rfl]
  show bufLen [LogMsg.timeoutClient url] = 39 + url.length
  unfold bufLen
  rw [List.map_cons, List.map_nil, List.sum_cons, List.sum_nil]
  simp [renderLen]

lemma log_twice_components (url : List Char) :
    (log (log initState (.timeoutClient url)) .munchStarted).log_file = [] ∧
    (log (log initState (.timeoutClient url)) .munchStarted).log_buffer
      = [.timeoutClient url, .munchStarted] ∧
    (log (log initState (.timeoutClient url)) .munchStarted).log_len = 0 := by
  rw [log_quiet rfl, log_quiet rfl]
  exact ⟨rfl, rfl, rfl⟩

theorem log_threshold_never_flushes :
    bufLen (log initState (.timeoutClient bigUrl)).log_buffer > 100000 ∧
    (log (log initState (.timeoutClient bigUrl)) .munchStarted).log_file = [] ∧
    (log (log initState (.timeoutClient bigUrl)) .munchStarted).log_buffer
      = [.timeoutClient bigUrl, .munchStarted] ∧
    (log (log initState (.timeoutClient bigUrl)) .munchStarted).log_len = 0 := by
  have hlen : bigUrl.length = 200000 := List.length_replicate 200000 'a'
  obtain ⟨c1, c2, c3⟩ := log_twice_components bigUrl
  refine ⟨?_, c1, c2, c3⟩
  rw [bufLen_first_entry bigUrl, hlen]
  norm_num

/-- C7: get_defendant_case_links returns the duplicate-free set of
exactly the anchor hrefs containing the fixed docket-sheet path
segment, and on the three-anchor example document returns exactly the
two matching hrefs. -/
theorem case_links_exact :
    (∀ soup : Soup, (get_defendant_case_links soup).Nodup ∧
      ∀ href : List Char, href ∈ get_defendant_case_links soup ↔
        (href ∈ soup.hrefs ∧ containsSeg seg666 href = true)) ∧
    get_defendant_case_links
        ⟨["http://www.opcso.org/dcktmstr/666666.php?&docase=111111".toList,
          "other.php".toList,
          "http://www.opcso.org/dcktmstr/666666.php?&docase=222222".toList], [], true⟩
      = ["http://www.opcso.org/dcktmstr/666666.php?&docase=111111".toList,
         "http://www.opcso.org/dcktmstr/666666.php?&docase=222222".toList] := by
  constructor
  · intro soup
    refine ⟨List.nodup_dedup _, fun href => ?_⟩
    rw [get_defendant_case_links, List.mem_dedup, List.mem_filter]
  · decide

/-- C8: write_data leaves the target file holding exactly the UTF-8
bytes of the content when the content is truthy and exactly nothing
when it is falsy (open for binary write truncates, and the scoped
handle is closed after the conditional write in every case), leaves
every other file untouched, and logs the write. -/
theorem write_data_spec (st : Scraper) (data : List Char) (fname : Fname) :
    fsLookup (write_data st data fname).fs fname
      = some (if data.isEmpty then [] else utf8Encode data) ∧
    (∀ g : Fname, g ≠ fname → fsLookup (write_data st data fname).fs g = fsLookup st.fs g) ∧
    logged (write_data st data fname) (.writing fname data.length) := by
  refine ⟨?_, ?_, ?_⟩
  · simp [write_data, log_fs, fsLookup_update_self]
  · intro g hg
    simp [write_data, log_fs, fsLookup_update_other _ _ hg]
  · have h := logged_log_self st (.writing fname data.length)
    unfold write_data logged at h ⊢
    exact h

/-- Witness for write_data_spec: writing two bytes to the defendant
file of id 5 leaves that content there and does not create the
defendant file of id 6. -/
theorem write_data_spec_witness :
    fsLookup (write_data initState ['h', 'i'] (.inl 5)).fs (.inl 5)
      = some (if (['h', 'i'] : List Char).isEmpty then [] else utf8Encode ['h', 'i']) ∧
    fsLookup (write_data initState ['h', 'i'] (.inl 5)).fs (.inl 6) = fsLookup initState.fs (.inl 6) :=
  ⟨(write_data_spec initState ['h', 'i'] (.inl 5)).1,
    (write_data_spec initState ['h', 'i'] (.inl 5)).2.1 (.inl 6) (by decide)⟩

lemma countTicks_nil : countTicks [] = 0 := rfl

lemma countAcquires_nil : countAcquires [] = 0 := rfl

lemma countTicks_cons_tick (es : List BucketEv) :
    countTicks (.tick :: es) = countTicks es + 1 := by
  simp [countTicks, List.filter_cons]

lemma countTicks_cons_acq (es : List BucketEv) :
    countTicks (.acquire :: es) = countTicks es := by
  simp [countTicks, List.filter_cons]

lemma countAcquires_cons_tick (es : List BucketEv) :
    countAcquires (.tick :: es) = countAcquires es := by
  simp [countAcquires, List.filter_cons]

lemma countAcquires_cons_acq (es : List BucketEv) :
    countAcquires (.acquire :: es) = countAcquires es + 1 := by
  simp [countAcquires, List.filter_cons]

lemma bucketRun_invariant (inc maxTok : ℚ) (hinc : 0 ≤ inc) :
    ∀ (tr : List BucketEv) (t0 tf : ℚ), 0 ≤ t0 → t0 ≤ maxTok →
      bucketRun inc maxTok t0 tr = some tf →
      0 ≤ tf ∧ (countAcquires tr : ℚ) + tf ≤ t0 + inc * (countTicks tr : ℚ) := by
  intro tr
  induction tr with
  | nil =>
    intro t0 tf h0 hcap hrun
    simp only [bucketRun, Option.some.injEq] at hrun
    subst hrun
    rw [countAcquires_nil, countTicks_nil]
    push_cast
    exact ⟨h0, by linarith⟩
  | cons e es ih =>
    intro t0 tf h0 hcap hrun
    cases e with
    | tick =>
      rw [show bucketRun inc maxTok t0 (BucketEv.tick :: es)
          = bucketRun inc maxTok (min (t0 + inc) maxTok) es from rfl] at hrun
      have hmax : 0 ≤ maxTok := le_trans h0 hcap
      have h0' : 0 ≤ min (t0 + inc) maxTok := le_min (by linarith) hmax
      obtain ⟨htf, hb⟩ := ih (min (t0 + inc) maxTok) tf h0' (min_le_right _ _) hrun
      refine ⟨htf, ?_⟩
      have hle : min (t0 + inc) maxTok ≤ t0 + inc := min_le_left _ _
      rw [countAcquires_cons_tick, countTicks_cons_tick]
      have hexp : inc * ((countTicks es : ℚ) + 1) = inc * (countTicks es : ℚ) + inc := by
        ring
      push_cast
      rw [hexp]
      linarith
    | acquire =>
      rw [show bucketRun inc maxTok t0 (BucketEv.acquire :: es)
          = if 1 ≤ t0 then bucketRun inc maxTok (t0 - 1) es else none from rfl] at hrun
      by_cases h1 : 1 ≤ t0
      · rw [if_pos h1] at hrun
        obtain ⟨htf, hb⟩ := ih (t0 - 1) tf (by linarith) (by linarith) hrun
        refine ⟨htf, ?_⟩
        rw [countAcquires_cons_acq, countTicks_cons_acq]
        push_cast
        linarith
      · rw [if_neg h1] at hrun
        exact absurd hrun (by simp)

/-- C9 (modelled from the spec, the RateLimiter source being absent
from the repository): with replenishment of rate over N tokens per tick
and ticks of duration one over N, across any trace the number of
acquisitions served without suspending is at most max_tokens plus rate
times the elapsed replenishment time, and any trace attempting more
acquisitions than that bound suspends at some acquisition. -/
theorem bucket_rate_bound (rate maxTok t0 : ℚ) (N : ℕ) (tr : List BucketEv)
    (hN : 0 < N) (hrate : 0 ≤ rate) (ht0 : 0 ≤ t0) (hcap : t0 ≤ maxTok) :
    (∀ tf, bucketRun (rate / N) maxTok t0 tr = some tf →
      (countAcquires tr : ℚ) ≤ maxTok + rate * ((countTicks tr : ℚ) / N)) ∧
    ((countAcquires tr : ℚ) > maxTok + rate * ((countTicks tr : ℚ) / N) →
      bucketRun (rate / N) maxTok t0 tr = none) := by
  have hNQ : (0 : ℚ) < N := by exact_mod_cast hN
  have hinc : 0 ≤ rate / N := div_nonneg hrate (le_of_lt hNQ)
  have key : ∀ tf, bucketRun (rate / N) maxTok t0 tr = some tf →
      (countAcquires tr : ℚ) ≤ maxTok + rate * ((countTicks tr : ℚ) / N) := by
    intro tf hrun
    obtain ⟨htf, hb⟩ := bucketRun_invariant (rate / N) maxTok hinc tr t0 tf ht0 hcap hrun
    have heq : rate / N * (countTicks tr : ℚ) = rate * ((countTicks tr : ℚ) / N) := by
      ring
    rw [heq] at hb
    linarith
  refine ⟨key, ?_⟩
  intro hgt
  cases hres : bucketRun (rate / N) maxTok t0 tr with
  | none => rfl
  | some tf => exact absurd (key tf hres) (by linarith)

lemma ddd_step_ok (parse : List Char → Soup) (st : Scraper) (d : Int) (oc : FetchOutcome)
    (hoc : oc ≠ FetchOutcome.unexpected) (h : st.log_len = 0) :
    (download_defendant_data parse st d oc).2 = false ∧
    (download_defendant_data parse st d oc).1.log_len = 0 ∧
    (download_defendant_data parse st d oc).1.log_file = st.log_file ∧
    (LogMsg.munchCompleted ∉ st.log_buffer →
      LogMsg.munchCompleted ∉ (download_defendant_data parse st d oc).1.log_buffer) ∧
    (∀ v, defWrite parse oc = some v →
      (download_defendant_data parse st d oc).1.fs = fsUpdate st.fs (Sum.inl d) v) ∧
    (defWrite parse oc = none → (download_defendant_data parse st d oc).1.fs = st.fs) := by
  cases oc with
  | success body =>
    by_cases hb : body.isEmpty
    · refine ⟨?_, ?_, ?_, ?_, ?_, ?_⟩ <;>
        simp [download_defendant_data, download_defendant, download_item, defWrite,
          hb, log_quiet, logB, h]
    · by_cases ht : (parse body).truthy
      · refine ⟨?_, ?_, ?_, ?_, ?_, ?_⟩ <;>
          simp [download_defendant_data, download_defendant, download_item, defWrite,
            write_data, hb, ht, log_quiet, logB, h]
      · refine ⟨?_, ?_, ?_, ?_, ?_, ?_⟩ <;>
          simp [download_defendant_data, download_defendant, download_item, defWrite,
            hb, ht, log_quiet, logB, h]
  | timeoutOrClient =>
    refine ⟨?_, ?_, ?_, ?_, ?_, ?_⟩ <;>
      simp [download_defendant_data, download_defendant, download_item, defWrite,
        log_quiet, logB, h]
  | unexpected => exact absurd rfl hoc

lemma ddd_step_raise (parse : List Char → Soup) (st : Scraper) (d : Int)
    (h : st.log_len = 0) :
    (download_defendant_data parse st d .unexpected).2 = true ∧
    (download_defendant_data parse st d .unexpected).1.log_len = 0 ∧
    (download_defendant_data parse st d .unexpected).1.log_file = st.log_file ∧
    (download_defendant_data parse st d .unexpected).1.fs = st.fs ∧
    LogMsg.excDefendant d ∈ (download_defendant_data parse st d .unexpected).1.log_buffer ∧
    (LogMsg.munchCompleted ∉ st.log_buffer →
      LogMsg.munchCompleted ∉ (download_defendant_data parse st d .unexpected).1.log_buffer) := by
  refine ⟨?_, ?_, ?_, ?_, ?_, ?_⟩ <;>
    simp [download_defendant_data, download_defendant, download_item,
      log_quiet, logB, h]

lemma gather_cons (parse : List Char → Soup) (fetch : Int → FetchOutcome)
    (st : Scraper) (d : Int) (rest : List Int) :
    gatherDefendants parse fetch st (d :: rest)
      = if (download_defendant_data parse st d (fetch d)).2
        then ((download_defendant_data parse st d (fetch d)).1, true)
        else gatherDefendants parse fetch (download_defendant_data parse st d (fetch d)).1 rest := by
  rcases hdd : download_defendant_data parse st d (fetch d) with ⟨st', r⟩
  simp only [gatherDefendants, hdd]

lemma gather_abort (parse : List Char → Soup) (fetch : Int → FetchOutcome) (bad : Int)
    (post : List Int) (hbad : fetch bad = FetchOutcome.unexpected) :
    ∀ (pre : List Int) (st : Scraper), (∀ d ∈ pre, fetch d ≠ FetchOutcome.unexpected) →
      st.log_len = 0 →
      (gatherDefendants parse fetch st (pre ++ bad :: post)).2 = true ∧
      (gatherDefendants parse fetch st (pre ++ bad :: post)).1.log_len = 0 ∧
      (gatherDefendants parse fetch st (pre ++ bad :: post)).1.log_file = st.log_file ∧
      LogMsg.excDefendant bad
        ∈ (gatherDefendants parse fetch st (pre ++ bad :: post)).1.log_buffer ∧
      (LogMsg.munchCompleted ∉ st.log_buffer →
        LogMsg.munchCompleted
          ∉ (gatherDefendants parse fetch st (pre ++ bad :: post)).1.log_buffer) ∧
      (∀ k : Fname, (∀ d ∈ pre, k ≠ Sum.inl d) →
        fsLookup (gatherDefendants parse fetch st (pre ++ bad :: post)).1.fs k
          = fsLookup st.fs k) ∧
      (∀ d ∈ pre, ∀ v, defWrite parse (fetch d) = some v →
        fsLookup (gatherDefendants parse fetch st (pre ++ bad :: post)).1.fs (Sum.inl d)
          = some v) := by
  intro pre
  induction pre with
  | nil =>
    intro st _ h
    obtain ⟨h1, h2, h3, h4, h5, h6⟩ := ddd_step_raise parse st bad h
    rw [List.nil_append, gather_cons, hbad, if_pos h1]
    exact ⟨rfl, h2, h3, h5, fun hmc => h6 hmc, fun k _ => by rw [h4],
      fun d hd => absurd hd (List.not_mem_nil d)⟩
  | cons p rest ih =>
    intro st hpre h
    have hp : fetch p ≠ FetchOutcome.unexpected := hpre p (List.mem_cons_self p rest)
    obtain ⟨s1, s2, s3, s4, s5, s6⟩ := ddd_step_ok parse st p (fetch p) hp h
    rw [List.cons_append, gather_cons, s1, if_neg (by simp)]
    obtain ⟨g1, g2, g3, g4, g5, g6, g7⟩ :=
      ih (download_defendant_data parse st p (fetch p)).1
        (fun d hd => hpre d (List.mem_cons_of_mem p hd)) s2
    refine ⟨g1, g2, by rw [g3, s3], g4, fun hmc => g5 (s4 hmc), ?_, ?_⟩
    · intro k hk
      rw [g6 k (fun d hd => hk d (List.mem_cons_of_mem p hd))]
      cases hw : defWrite parse (fetch p) with
      | none => rw [s6 hw]
      | some v =>
        rw [s5 v hw, fsLookup_update_other _ _ (hk p (List.mem_cons_self p rest))]
    · intro d hd v hv
      rcases List.mem_cons.mp hd with rfl | hd'
      · by_cases hdr : d ∈ rest
        · exact g7 d hdr v hv
        · have hne : ∀ x ∈ rest, (Sum.inl d : Fname) ≠ Sum.inl x := by
            intro x hx he
            injection he with h'
            exact hdr (h' ▸ hx)
          rw [g6 (Sum.inl d) hne, s5 v hv, fsLookup_update_self]
      · exact g7 d hd' v hv

/-- Components of the cancelled tail of munch: log the cancellation,
flush (handler), flush again (final step). -/
lemma munch_cancel_components (stE : Scraper) (h : stE.log_len = 0) :
    (write_log (write_log (log stE .munchCancelled))).log_buffer = [] ∧
    (write_log (write_log (log stE .munchCancelled))).log_file
      = stE.log_file ++ (stE.log_buffer ++ [.munchCancelled]) ∧
    (write_log (write_log (log stE .munchCancelled))).fs = stE.fs := by
  rw [log_quiet h]
  exact ⟨rfl, by simp [write_log, logB], rfl⟩

lemma munch_defendants_raised (parse : List Char → Soup) (fetch : Int → FetchOutcome)
    (sheetFetch : List Char → FetchOutcome) (st : Scraper) (wl : List Int)
    (hg : (gatherDefendants parse fetch (log st .munchStarted) wl).2 = true) :
    munch_defendants parse fetch sheetFetch st wl
      = ((gatherDefendants parse fetch (log st .munchStarted) wl).1, true) := by
  rcases hga : gatherDefendants parse fetch (log st .munchStarted) wl with ⟨st2, r⟩
  have hr : r = true := by rw [hga] at hg; exact hg
  subst hr
  simp only [munch_defendants, hga]
  simp

lemma munch_cancelled_eq (parse : List Char → Soup) (fetch : Int → FetchOutcome)
    (sheetFetch : List Char → FetchOutcome) (shuffle : List Int → List Int)
    (start stop : Int) (listing : List (List Char)) (st : Scraper) (wl : List Int)
    (hw : munchWorkList shuffle start stop listing = some wl)
    (hr : munch_defendants parse fetch sheetFetch st wl
        = ((gatherDefendants parse fetch (log st .munchStarted) wl).1, true)) :
    munch parse fetch sheetFetch shuffle start stop listing st
      = write_log (write_log
          (log (gatherDefendants parse fetch (log st .munchStarted) wl).1
            .munchCancelled)) := by
  simp only [munch, hw, hr]
  simp

/-- C2: when any task of the defendant fan-out hits an unexpected
(non-timeout, non-client) error, the run logs the error and the
cancellation and flushes the buffer to the log file, never reaches the
sheet-fetch phase (no completion entry, no docket file written), and
the defendant files written by the sibling tasks that completed before
the failing task are still on disk with their fetched content. -/
theorem munch_aborts_on_unexpected
    (parse : List Char → Soup) (fetch : Int → FetchOutcome)
    (sheetFetch : List Char → FetchOutcome) (shuffle : List Int → List Int)
    (start stop : Int) (listing : List (List Char)) (pre post : List Int) (bad : Int)
    (hw : munchWorkList shuffle start stop listing = some (pre ++ bad :: post))
    (hpre : ∀ d ∈ pre, fetch d ≠ FetchOutcome.unexpected)
    (hbad : fetch bad = FetchOutcome.unexpected) :
    LogMsg.munchCancelled
      ∈ (munch parse fetch sheetFetch shuffle start stop listing initState).log_file ∧
    LogMsg.excDefendant bad
      ∈ (munch parse fetch sheetFetch shuffle start stop listing initState).log_file ∧
    (munch parse fetch sheetFetch shuffle start stop listing initState).log_buffer = [] ∧
    LogMsg.munchCompleted
      ∉ (munch parse fetch sheetFetch shuffle start stop listing initState).log_file ∧
    (∀ s : List Char,
      fsLookup (munch parse fetch sheetFetch shuffle start stop listing initState).fs
        (Sum.inr s) = none) ∧
    (∀ d ∈ pre, ∀ v, defWrite parse (fetch d) = some v →
      fsLookup (munch parse fetch sheetFetch shuffle start stop listing initState).fs
        (Sum.inl d) = some v) := by
  have h1len : (log initState LogMsg.munchStarted).log_len = 0 := by
    rw [log_quiet rfl]
    rfl
  have h1file : (log initState LogMsg.munchStarted).log_file = [] := by
    rw [log_quiet rfl]
    rfl
  have h1buf : (log initState LogMsg.munchStarted).log_buffer = [LogMsg.munchStarted] := by
    rw [log_quiet rfl]
    rfl
  have h1fs : (log initState LogMsg.munchStarted).fs = [] := by
    rw [log_quiet rfl]
    rfl
  obtain ⟨g1, g2, g3, g4, g5, g6, g7⟩ :=
    gather_abort parse fetch bad post hbad pre (log initState LogMsg.munchStarted)
      hpre h1len
  have hmd := munch_defendants_raised parse fetch sheetFetch initState
    (pre ++ bad :: post) g1
  have hmcl := munch_cancelled_eq parse fetch sheetFetch shuffle start stop listing
    initState (pre ++ bad :: post) hw hmd
  obtain ⟨c1, c2, c3⟩ := munch_cancel_components
    (gatherDefendants parse fetch (log initState LogMsg.munchStarted)
      (pre ++ bad :: post)).1 g2
  rw [hmcl]
  refine ⟨?_, ?_, c1, ?_, ?_, ?_⟩
  · rw [c2]
    simp
  · rw [c2, g3, h1file]
    simp only [List.nil_append]
    exact List.mem_append.mpr (Or.inl g4)
  · rw [c2, g3, h1file]
    have hnotbuf := g5 (by rw [h1buf]; simp)
    simp [hnotbuf]
  · intro s
    rw [c3, g6 (Sum.inr s) (fun d hd => by simp), h1fs]
    rfl
  · intro d hd v hv
    rw [c3]
    exact g7 d hd v hv

/-- Witness for munch_aborts_on_unexpected: over the range 100 to 103
with an empty directory, the shuffled work list is the full range,
defendant 101 raises, the run is cancelled with the log flushed, no
docket file exists, and the file of defendant 100 (fetched before the
error) holds its content. -/
theorem munch_aborts_on_unexpected_witness :
    LogMsg.munchCancelled
      ∈ (munch parseW fetchW sheetFetchW id 100 103 [] initState).log_file ∧
    LogMsg.excDefendant 101
      ∈ (munch parseW fetchW sheetFetchW id 100 103 [] initState).log_file ∧
    (munch parseW fetchW sheetFetchW id 100 103 [] initState).log_buffer = [] ∧
    LogMsg.munchCompleted
      ∉ (munch parseW fetchW sheetFetchW id 100 103 [] initState).log_file ∧
    (∀ s : List Char,
      fsLookup (munch parseW fetchW sheetFetchW id 100 103 [] initState).fs
        (Sum.inr s) = none) ∧
    (∀ d ∈ [(100 : Int)], ∀ v, defWrite parseW (fetchW d) = some v →
      fsLookup (munch parseW fetchW sheetFetchW id 100 103 [] initState).fs
        (Sum.inl d) = some v) :=
  munch_aborts_on_unexpected parseW fetchW sheetFetchW id 100 103 [] [100] [102] 101
    (by decide) (by decide) (by decide)

/-- Witness for bucket_rate_bound: a bucket with capacity two and one
token per tick serves a burst of two acquisitions, a tick, and one more
acquisition without suspending, within the bound of three. -/
theorem bucket_rate_bound_witness :
    (countAcquires [BucketEv.acquire, .acquire, .tick, .acquire] : ℚ)
      ≤ 2 + 1 * ((countTicks [BucketEv.acquire, .acquire, .tick, .acquire] : ℚ) / 1) :=
  (bucket_rate_bound 1 2 2 1 [.acquire, .acquire, .tick, .acquire]
      (by norm_num) (by norm_num) (by norm_num) (by norm_num)).1 0
    (by norm_num [bucketRun, min_def])

end CourtScrape
